import Mathlib

set_option maxRecDepth 40000

/-!
Verification development for the markdown-to-HTML converter in
src/markdown2html.py.  The Python source is shallowly embedded: lines are
lists of characters (each input line is taken after the trailing newline has
been removed, as the source does with rstrip), the inline regex
substitutions are modelled by an explicit leftmost shortest-match scanner,
and the block-level state machine of main is modelled as an explicit state
record with a step function that returns the new state together with the
text written to the output file.
-/

/-- Character list of a string literal. -/
def strL (s : String) : List Char := s.data

/-- Whitespace characters removed by the Python str.strip method
(ASCII whitespace: space, tab, newline, carriage return, vertical tab,
form feed). -/
def isPySpace (c : Char) : Bool :=
  c = ' ' || c = '\t' || c = '\n' || c = '\r' || c.toNat = 11 || c.toNat = 12

/-- Python str.strip(): remove leading and trailing whitespace. -/
def pyStrip (s : List Char) : List Char :=
  ((s.dropWhile isPySpace).reverse.dropWhile isPySpace).reverse

/-- Whether the second list begins with the first (Python str.startswith). -/
def leadsWith : List Char → List Char → Bool
  | [], _ => true
  | _ :: _, [] => false
  | p :: ps, c :: cs => p = c && leadsWith ps cs

/-- Whether pat occurs as a contiguous substring of the second list. -/
def hasSub (pat : List Char) : List Char → Bool
  | [] => leadsWith pat []
  | c :: cs => leadsWith pat (c :: cs) || hasSub pat cs

/-- Scanner for the closing two-character delimiter of a lazy regex group:
given the text that follows at least one character of group content, return
the remaining group content up to the first occurrence of the delimiter
c1 c2, together with the text after the delimiter.  Fails when the
delimiter does not occur, or when a newline (which the regex dot does not
match) is reached first. -/
def findClose (c1 c2 : Char) : List Char → Option (List Char × List Char)
  | a :: b :: rest =>
    if a = c1 ∧ b = c2 then some ([], rest)
    else if a = '\n' then none
    else
      match findClose c1 c2 (b :: rest) with
      | some (content, r) => some (a :: content, r)
      | none => none
  | _ => none

/-- One pass of the Python re.sub with a pattern of the shape
o1 o2 (.+?) c1 c2: scan left to right; at a position where the opening
delimiter matches and a complete match exists, replace the (minimal,
nonempty) group by repl applied to it and continue after the match;
otherwise advance one character.  Fuel bounds the recursion; the initial
length of the text is always enough, since every step consumes at least one
character of the text. -/
def subGo (o1 o2 c1 c2 : Char) (repl : List Char → List Char) :
    Nat → List Char → List Char
  | _, [] => []
  | 0, s => s
  | fuel + 1, a :: s =>
    match s with
    | [] => [a]
    | b :: rest =>
      if a = o1 ∧ b = o2 then
        match rest with
        | x :: rest2 =>
          if x ≠ '\n' then
            match findClose c1 c2 rest2 with
            | some (content, r) => repl (x :: content) ++ subGo o1 o2 c1 c2 repl fuel r
            | none => a :: subGo o1 o2 c1 c2 repl fuel (b :: rest)
          else a :: subGo o1 o2 c1 c2 repl fuel (b :: rest)
        | [] => a :: subGo o1 o2 c1 c2 repl fuel (b :: rest)
      else a :: subGo o1 o2 c1 c2 repl fuel (b :: rest)

/-- Python re.sub of the lazy two-delimiter pattern over a whole text. -/
def subPattern (o1 o2 c1 c2 : Char) (repl : List Char → List Char)
    (s : List Char) : List Char :=
  subGo o1 o2 c1 c2 repl s.length s

/-! MD5, as used by hashlib.md5(text.encode()).hexdigest().  Bytes are
naturals below 256, 32-bit words are naturals reduced modulo 2^32. -/

/-- UTF-8 encoding of one character (Python str.encode). -/
def utf8Bytes (c : Char) : List Nat :=
  let n := c.toNat
  if n < 128 then [n]
  else if n < 2048 then [192 + n / 64, 128 + n % 64]
  else if n < 65536 then [224 + n / 4096, 128 + (n / 64) % 64, 128 + n % 64]
  else [240 + n / 262144, 128 + (n / 4096) % 64, 128 + (n / 64) % 64, 128 + n % 64]

/-- UTF-8 bytes of a text. -/
def strBytes (s : List Char) : List Nat := (s.map utf8Bytes).flatten

/-- k little-endian bytes of a natural number. -/
def leBytes : Nat → Nat → List Nat
  | 0, _ => []
  | k + 1, x => (x % 256) :: leBytes k (x / 256)

/-- MD5 padding: append the 0x80 byte, zero bytes up to 56 modulo 64, then
the bit length as a 64-bit little-endian number. -/
def md5pad (msg : List Nat) : List Nat :=
  msg ++ [128] ++ List.replicate ((119 - msg.length % 64) % 64) 0
      ++ leBytes 8 (8 * msg.length)

/-- The 64 MD5 sine-derived additive constants. -/
def md5K : List Nat :=
  [3614090360, 3905402710, 606105819, 3250441966, 4118548399, 1200080426, 2821735955, 4249261313,
   1770035416, 2336552879, 4294925233, 2304563134, 1804603682, 4254626195, 2792965006, 1236535329,
   4129170786, 3225465664, 643717713, 3921069994, 3593408605, 38016083, 3634488961, 3889429448,
   568446438, 3275163606, 4107603335, 1163531501, 2850285829, 4243563512, 1735328473, 2368359562,
   4294588738, 2272392833, 1839030562, 4259657740, 2763975236, 1272893353, 4139469664, 3200236656,
   681279174, 3936430074, 3572445317, 76029189, 3654602809, 3873151461, 530742520, 3299628645,
   4096336452, 1126891415, 2878612391, 4237533241, 1700485571, 2399980690, 4293915773, 2240044497,
   1873313359, 4264355552, 2734768916, 1309151649, 4149444226, 3174756917, 718787259, 3951481745]

/-- The 64 MD5 per-operation left-rotation amounts. -/
def md5S : List Nat :=
  [7, 12, 17, 22, 7, 12, 17, 22, 7, 12, 17, 22, 7, 12, 17, 22,
   5, 9, 14, 20, 5, 9, 14, 20, 5, 9, 14, 20, 5, 9, 14, 20,
   4, 11, 16, 23, 4, 11, 16, 23, 4, 11, 16, 23, 4, 11, 16, 23,
   6, 10, 15, 21, 6, 10, 15, 21, 6, 10, 15, 21, 6, 10, 15, 21]

/-- List lookup with default zero. -/
def getN (l : List Nat) (i : Nat) : Nat := l.getD i 0

/-- Word i of a 64-byte block, read little-endian. -/
def blockWord (block : List Nat) (i : Nat) : Nat :=
  getN block (4 * i) + 256 * getN block (4 * i + 1)
    + 65536 * getN block (4 * i + 2) + 16777216 * getN block (4 * i + 3)

/-- Bitwise complement on 32-bit words. -/
def notw (x : Nat) : Nat := x ^^^ 4294967295

/-- Left rotation of a 32-bit word. -/
def rotl (x n : Nat) : Nat := ((x <<< n) ||| (x >>> (32 - n))) % 4294967296

/-- The MD5 nonlinear function of operation i. -/
def md5F (i b c d : Nat) : Nat :=
  if i < 16 then (b &&& c) ||| (notw b &&& d)
  else if i < 32 then (d &&& b) ||| (notw d &&& c)
  else if i < 48 then b ^^^ c ^^^ d
  else c ^^^ (b ||| notw d)

/-- The MD5 message-word index of operation i. -/
def md5G (i : Nat) : Nat :=
  if i < 16 then i
  else if i < 32 then (5 * i + 1) % 16
  else if i < 48 then (3 * i + 5) % 16
  else (7 * i) % 16

/-- The four 32-bit MD5 working registers. -/
structure MD5State where
  a : Nat
  b : Nat
  c : Nat
  d : Nat
deriving DecidableEq

/-- One of the 64 MD5 operations. -/
def md5Op (block : List Nat) (i : Nat) (st : MD5State) : MD5State :=
  let f := md5F i st.b st.c st.d
  let tmp := (st.a + f + getN md5K i + blockWord block (md5G i)) % 4294967296
  ⟨st.d, (st.b + rotl tmp (getN md5S i)) % 4294967296, st.b, st.c⟩

/-- The first n MD5 operations on one block. -/
def md5Rounds (block : List Nat) (st : MD5State) : Nat → MD5State
  | 0 => st
  | i + 1 => md5Op block i (md5Rounds block st i)

/-- Process one 64-byte block: run the 64 operations and add the result to
the incoming registers modulo 2^32. -/
def md5Block (st : MD5State) (block : List Nat) : MD5State :=
  let r := md5Rounds block st 64
  ⟨(st.a + r.a) % 4294967296, (st.b + r.b) % 4294967296,
   (st.c + r.c) % 4294967296, (st.d + r.d) % 4294967296⟩

/-- Split a byte list into 64-byte chunks (fuel-bounded; the length of the
list is always enough fuel). -/
def chunksGo : Nat → List Nat → List (List Nat)
  | 0, _ => []
  | _ + 1, [] => []
  | fuel + 1, l => l.take 64 :: chunksGo fuel (l.drop 64)

/-- Initial MD5 register values. -/
def md5Init : MD5State := ⟨1732584193, 4023233417, 2562383102, 271733878⟩

/-- The 16-byte MD5 digest of a byte message. -/
def md5Digest (msg : List Nat) : List Nat :=
  let padded := md5pad msg
  let final := (chunksGo padded.length padded).foldl md5Block md5Init
  leBytes 4 final.a ++ leBytes 4 final.b ++ leBytes 4 final.c ++ leBytes 4 final.d

/-- Lowercase hexadecimal digit. -/
def hexDigitChar (n : Nat) : Char :=
  if n < 10 then Char.ofNat (48 + n) else Char.ofNat (87 + n)

/-- Two lowercase hex digits of a byte. -/
def byteHex (b : Nat) : List Char := [hexDigitChar (b / 16), hexDigitChar (b % 16)]

/-- Source md5_hash: lowercase hexadecimal MD5 digest of the text
(hashlib.md5(text.encode()).hexdigest()). -/
def md5_hash (text : List Char) : List Char :=
  ((md5Digest (strBytes text)).map byteHex).flatten

/-- Source remove_c: re.sub applied with the character class of c and C and
an empty replacement removes every lowercase or uppercase c. -/
def remove_c (text : List Char) : List Char :=
  text.filter (fun c => !(c = 'c' || c = 'C'))

/-- Source replace_bold_emphasis: first the lazy bold pattern with
double asterisk delimiters, then the lazy emphasis pattern with double
underscore delimiters. -/
def replace_bold_emphasis (text : List Char) : List Char :=
  subPattern '_' '_' '_' '_' (fun g => strL "<em>" ++ g ++ strL "</em>")
    (subPattern '*' '*' '*' '*' (fun g => strL "<b>" ++ g ++ strL "</b>") text)

/-- Source replace_special: first the lazy double-square-bracket pattern
replaced by the MD5 hex digest of the group, then the lazy
double-parenthesis pattern replaced by the group with c and C removed. -/
def replace_special (text : List Char) : List Char :=
  subPattern '(' '(' ')' ')' remove_c
    (subPattern '[' '[' ']' ']' md5_hash text)

/-- Source process_line: bold and emphasis substitutions first, then the
special substitutions. -/
def process_line (line : List Char) : List Char :=
  replace_special (replace_bold_emphasis line)

/-! The state machine of main.  The mutable state of the conversion loop is
the pair of flags in_ul and in_ol together with the accumulated
paragraph_lines; the output file is modelled by returning the characters
written. -/

/-- The loop state of main: inside an unordered list, inside an ordered
list, and the accumulated paragraph lines. -/
structure MState where
  in_ul : Bool
  in_ol : Bool
  paragraph_lines : List (List Char)
deriving DecidableEq

/-- The initial loop state: no list open, no paragraph lines. -/
def initState : MState := ⟨false, false, []⟩

/-- Output of close_paragraph: nothing when no paragraph lines are
accumulated; otherwise the lines are processed and wrapped in a p element,
joined by the break tag when there are several. -/
def closeParagraphOut (para : List (List Char)) : List Char :=
  match para with
  | [] => []
  | [l] => strL "<p>\n" ++ process_line l ++ strL "\n</p>\n"
  | ls => strL "<p>\n"
      ++ List.intercalate (strL "<br/>\n") (ls.map process_line)
      ++ strL "\n</p>\n"

/-- Output of close_ul: the closing ul tag when the flag is set. -/
def closeUlOut (in_ul : Bool) : List Char :=
  if in_ul then strL "</ul>\n" else []

/-- Output of close_ol: the closing ol tag when the flag is set. -/
def closeOlOut (in_ol : Bool) : List Char :=
  if in_ol then strL "</ol>\n" else []

/-- Output of closing the paragraph, the unordered list and the ordered
list in this order, as the blank-line and heading branches of main do. -/
def closeAllOut (st : MState) : List Char :=
  closeParagraphOut st.paragraph_lines ++ closeUlOut st.in_ul ++ closeOlOut st.in_ol

/-- Output of the heading branch of main on a stripped line that starts
with a hash: count the leading hash characters; when the count is at most
six and the next character exists and is a space, emit the heading element
with the processed remainder; otherwise emit nothing. -/
def headingOut (stripped : List Char) : List Char :=
  let count := (stripped.takeWhile (fun c => c = '#')).length
  if count ≤ 6 then
    match stripped.drop count with
    | ' ' :: t =>
        strL "<h" ++ Nat.toDigits 10 count ++ strL ">"
          ++ process_line t
          ++ strL "</h" ++ Nat.toDigits 10 count ++ strL ">\n"
    | _ => []
  else []

/-- One iteration of the loop of main on one input line (the line is given
after the trailing newline has been stripped).  Returns the new loop state
and the characters written to the output file during the iteration. -/
def stepLine (st : MState) (line : List Char) : MState × List Char :=
  let stripped := pyStrip line
  if stripped = [] then
    (initState, closeAllOut st)
  else if leadsWith (strL "#") stripped then
    (initState, closeAllOut st ++ headingOut stripped)
  else if leadsWith (strL "- ") stripped then
    let closeOut := closeParagraphOut st.paragraph_lines ++ closeOlOut st.in_ol
    let openOut := if st.in_ul then [] else strL "<ul>\n"
    (⟨true, false, []⟩,
      closeOut ++ openOut ++ strL "<li>" ++ process_line (stripped.drop 2) ++ strL "</li>\n")
  else if leadsWith (strL "* ") stripped then
    let closeOut := closeParagraphOut st.paragraph_lines ++ closeUlOut st.in_ul
    let openOut := if st.in_ol then [] else strL "<ol>\n"
    (⟨false, true, []⟩,
      closeOut ++ openOut ++ strL "<li>" ++ process_line (stripped.drop 2) ++ strL "</li>\n")
  else
    (⟨false, false, st.paragraph_lines ++ [line]⟩,
      closeUlOut st.in_ul ++ closeOlOut st.in_ol)

/-- The loop of main over the remaining input lines followed by the final
closing of any open block, accumulating the characters written. -/
def processGo (st : MState) : List (List Char) → List Char
  | [] => closeAllOut st
  | l :: ls => (stepLine st l).2 ++ processGo (stepLine st l).1 ls

/-- The whole conversion pass of main over the input lines (each given
without its trailing newline): the characters written to the output file. -/
def processDoc (lines : List (List Char)) : List Char :=
  processGo initState lines

/-! The argument handling at the start of main (lines 74 to 86 of the
source), before any file is opened.  The os.path.isfile test is an oracle
parameter.  Only the proceed result reaches the statement that opens the
input and output files, so on the other results the output file is neither
created nor modified. -/

/-- Outcome of the checks at the start of main. -/
inductive StartResult where
  | usageError : StartResult
  | missingError : String → StartResult
  | proceed : String → String → StartResult
deriving DecidableEq

/-- The start of main: fewer than three entries in sys.argv (program name
plus two arguments) reports usage; a first argument that is not an
existing regular file reports Missing; otherwise main proceeds to open
sys.argv entry one for reading and entry two for writing.  Entries past
the first three are never read. -/
def mainStart (argv : List String) (isFile : String → Bool) : StartResult :=
  if argv.length < 3 then StartResult.usageError
  else
    let input_file := argv.getD 1 ""
    let output_file := argv.getD 2 ""
    if isFile input_file then StartResult.proceed input_file output_file
    else StartResult.missingError input_file

/-- Message printed to the error stream for each start outcome. -/
def startErrMsg : StartResult → Option String
  | StartResult.usageError => some "Usage: ./markdown2html.py README.md README.html"
  | StartResult.missingError p => some ("Missing " ++ p)
  | StartResult.proceed _ _ => none

/-- Exit code fixed by the start checks; none when main goes on to the
conversion pass. -/
def startExitCode : StartResult → Option Nat
  | StartResult.usageError => some 1
  | StartResult.missingError _ => some 1
  | StartResult.proceed _ _ => none

/-- Whether the start outcome reaches the statement that opens (and hence
creates or truncates) the output file. -/
def opensOutput : StartResult → Bool
  | StartResult.proceed _ _ => true
  | _ => false

/-! Helper lemmas about the substring predicates and the substitution
scanner. -/

theorem leadsWith_nil_pattern (s : List Char) : leadsWith [] s = true := by
  cases s <;> rfl

theorem leadsWith_append_ext (pat s t : List Char)
    (h : leadsWith pat s = true) : leadsWith pat (s ++ t) = true := by
  induction pat generalizing s with
  | nil => exact leadsWith_nil_pattern _
  | cons p ps ih =>
    cases s with
    | nil => simp [leadsWith] at h
    | cons c cs =>
      simp only [leadsWith, Bool.and_eq_true] at h
      simp only [List.cons_append, leadsWith, Bool.and_eq_true]
      exact ⟨h.1, ih cs h.2⟩

theorem hasSub_append_left (pat x y : List Char)
    (h : hasSub pat x = true) : hasSub pat (x ++ y) = true := by
  induction x with
  | nil =>
    simp only [hasSub] at h
    have hp : pat = [] := by
      cases pat with
      | nil => rfl
      | cons p ps => simp [leadsWith] at h
    subst hp
    cases y <;> simp [hasSub, leadsWith_nil_pattern]
  | cons c cs ih =>
    simp only [hasSub, Bool.or_eq_true] at h
    rcases h with h | h
    · simp only [List.cons_append, hasSub, Bool.or_eq_true]
      exact Or.inl (leadsWith_append_ext _ _ _ h)
    · simp only [List.cons_append, hasSub, Bool.or_eq_true]
      exact Or.inr (ih h)

theorem hasSub_append_right (pat x y : List Char)
    (h : hasSub pat y = true) : hasSub pat (x ++ y) = true := by
  induction x with
  | nil => simpa using h
  | cons c cs ih =>
    simp only [List.cons_append, hasSub, Bool.or_eq_true]
    exact Or.inr ih

theorem mem_of_hasSub (d1 d2 : Char) (s : List Char)
    (h : hasSub [d1, d2] s = true) : d1 ∈ s := by
  induction s with
  | nil => simp [hasSub, leadsWith] at h
  | cons c cs ih =>
    simp only [hasSub, Bool.or_eq_true] at h
    rcases h with h | h
    · simp only [leadsWith, Bool.and_eq_true, decide_eq_true_eq] at h
      exact h.1 ▸ List.mem_cons_self c cs
    · exact List.mem_cons_of_mem c (ih h)

theorem subGo_no_opener (o1 o2 c1 c2 : Char) (repl : List Char → List Char) :
    ∀ fuel (s : List Char), hasSub [o1, o2] s = false →
      subGo o1 o2 c1 c2 repl fuel s = s := by
  intro fuel
  induction fuel with
  | zero => intro s _; cases s <;> rfl
  | succ n ih =>
    intro s h
    match s with
    | [] => rfl
    | [a] => rfl
    | a :: b :: rest =>
      have h1 : ¬(a = o1 ∧ b = o2) := by
        rintro ⟨rfl, rfl⟩
        simp [hasSub, leadsWith] at h
      have h2 : hasSub [o1, o2] (b :: rest) = false := by
        have h' : (leadsWith [o1, o2] (a :: b :: rest)
            || hasSub [o1, o2] (b :: rest)) = false := h
        exact (Bool.or_eq_false_iff.mp h').2
      have hrec := ih (b :: rest) h2
      simp only [subGo, if_neg h1, hrec]

theorem subPattern_no_opener (o1 o2 c1 c2 : Char) (repl : List Char → List Char)
    (s : List Char) (h : hasSub [o1, o2] s = false) :
    subPattern o1 o2 c1 c2 repl s = s :=
  subGo_no_opener o1 o2 c1 c2 repl s.length s h

/-- Claim C7: a string that contains none of the marker sequences of two
asterisks, two underscores, two opening square brackets, two opening
parentheses is returned unchanged by the inline transformer process_line,
and hence applying the transformer twice to such a string equals applying
it once. -/
theorem c7_no_marker_fixed (s : List Char)
    (h1 : hasSub (strL "**") s = false) (h2 : hasSub (strL "__") s = false)
    (h3 : hasSub (strL "[[") s = false) (h4 : hasSub (strL "((") s = false) :
    process_line s = s ∧ process_line (process_line s) = process_line s := by
  have hfix : process_line s = s := by
    unfold process_line replace_special replace_bold_emphasis
    rw [subPattern_no_opener '*' '*' '*' '*' _ s h1,
        subPattern_no_opener '_' '_' '_' '_' _ s h2,
        subPattern_no_opener '[' '[' ']' ']' _ s h3,
        subPattern_no_opener '(' '(' ')' ')' _ s h4]
  exact ⟨hfix, by rw [hfix]; exact hfix⟩

/-- Witness for C7 at a concrete marker-free string. -/
theorem c7_no_marker_fixed_witness :
    process_line (strL "plain <b>text</b> here") = strL "plain <b>text</b> here" ∧
    process_line (process_line (strL "plain <b>text</b> here"))
      = process_line (strL "plain <b>text</b> here") :=
  c7_no_marker_fixed (strL "plain <b>text</b> here")
    (by decide) (by decide) (by decide) (by decide)

/-- Claim C10: each inline pattern needs at least one character of group
content, so the four delimiter pairs with empty content are left unchanged
by process_line. -/
theorem c10_empty_delimiters :
    process_line (strL "****") = strL "****" ∧
    process_line (strL "____") = strL "____" ∧
    process_line (strL "[[]]") = strL "[[]]" ∧
    process_line (strL "(())") = strL "(())" := by
  refine ⟨by decide, by decide, by decide, by decide⟩

/-- Claim C8: a two-argument invocation whose first path is not an existing
regular file yields the Missing message with that path on the error stream,
exit code 1, and never reaches the statement that opens the output file. -/
theorem c8_missing_input (p a b : String) (rest : List String)
    (isFile : String → Bool) (h : isFile a = false) :
    mainStart (p :: a :: b :: rest) isFile = StartResult.missingError a ∧
    startErrMsg (mainStart (p :: a :: b :: rest) isFile) = some ("Missing " ++ a) ∧
    startExitCode (mainStart (p :: a :: b :: rest) isFile) = some 1 ∧
    opensOutput (mainStart (p :: a :: b :: rest) isFile) = false := by
  have hm : mainStart (p :: a :: b :: rest) isFile = StartResult.missingError a := by
    unfold mainStart
    have hlen : ¬((p :: a :: b :: rest).length < 3) := by
      simp [List.length_cons]
    rw [if_neg hlen]
    simp [List.getD, h]
  exact ⟨hm, by rw [hm]; rfl, by rw [hm]; rfl, by rw [hm]; rfl⟩

/-- Witness for C8 with a concrete argument vector and a file oracle that
reports no file present. -/
theorem c8_missing_input_witness :
    mainStart ["./markdown2html.py", "README.md", "README.html"] (fun _ => false)
      = StartResult.missingError "README.md" ∧
    startErrMsg (mainStart ["./markdown2html.py", "README.md", "README.html"]
      (fun _ => false)) = some ("Missing " ++ "README.md") ∧
    startExitCode (mainStart ["./markdown2html.py", "README.md", "README.html"]
      (fun _ => false)) = some 1 ∧
    opensOutput (mainStart ["./markdown2html.py", "README.md", "README.html"]
      (fun _ => false)) = false :=
  c8_missing_input "./markdown2html.py" "README.md" "README.html" []
    (fun _ => false) rfl

/-- Claim C9: with more than two command-line arguments main does not
report a usage error and ignores the extra arguments, proceeding exactly
as with the first two; only an argument vector with fewer than two
arguments after the program name yields the usage outcome. -/
theorem c9_extra_args_ignored (p a b : String) (extras : List String)
    (isFile : String → Bool) (argv : List String) (hlen : argv.length < 3) :
    mainStart (p :: a :: b :: extras) isFile ≠ StartResult.usageError ∧
    mainStart (p :: a :: b :: extras) isFile = mainStart [p, a, b] isFile ∧
    mainStart argv isFile = StartResult.usageError := by
  have hlen3 : ¬((p :: a :: b :: extras).length < 3) := by
    simp [List.length_cons]
  have hlen3b : ¬(([p, a, b] : List String).length < 3) := by
    simp
  refine ⟨?_, ?_, ?_⟩
  · unfold mainStart
    rw [if_neg hlen3]
    cases hfa : isFile a <;> simp [hfa]
  · unfold mainStart
    rw [if_neg hlen3, if_neg hlen3b]
    rfl
  · unfold mainStart
    rw [if_pos hlen]

/-- Witness for C9 with a four-argument vector and a one-entry vector. -/
theorem c9_extra_args_ignored_witness :
    mainStart ["./markdown2html.py", "a.md", "a.html", "extra"] (fun _ => true)
      ≠ StartResult.usageError ∧
    mainStart ["./markdown2html.py", "a.md", "a.html", "extra"] (fun _ => true)
      = mainStart ["./markdown2html.py", "a.md", "a.html"] (fun _ => true) ∧
    mainStart ["./markdown2html.py"] (fun _ => true) = StartResult.usageError :=
  c9_extra_args_ignored "./markdown2html.py" "a.md" "a.html" ["extra"]
    (fun _ => true) ["./markdown2html.py"] (by decide)

/-! Helper lemmas about stripping and the branches of stepLine. -/

theorem dropWhile_eq_self_headD (p : Char → Bool) (l : List Char) (d : Char)
    (h : p (l.headD d) = false) : l.dropWhile p = l := by
  cases l with
  | nil => rfl
  | cons a t =>
    simp only [List.headD_cons] at h
    rw [List.dropWhile_cons, if_neg]
    simp [h]

theorem headD_reverse (l : List Char) (d : Char) :
    l.reverse.headD d = l.getLastD d := by
  rw [List.headD_eq_head?_getD, List.head?_reverse, List.getLastD_eq_getLast?]

theorem pyStrip_eq_self (l : List Char)
    (hh : isPySpace (l.headD ' ') = false)
    (hl : isPySpace (l.getLastD ' ') = false) : pyStrip l = l := by
  unfold pyStrip
  rw [dropWhile_eq_self_headD _ _ _ hh]
  rw [dropWhile_eq_self_headD _ _ ' ' (by rw [headD_reverse]; exact hl)]
  exact List.reverse_reverse l

theorem ne_nil_of_leadsWith (p : Char) (ps : List Char) (s : List Char)
    (h : leadsWith (p :: ps) s = true) : s ≠ [] := by
  cases s with
  | nil => simp [leadsWith] at h
  | cons a t => simp

theorem stepLine_blankB (st : MState) (line : List Char)
    (h : pyStrip line = []) :
    stepLine st line = (initState, closeAllOut st) := by
  simp [stepLine, h]

theorem stepLine_headingB (st : MState) (line : List Char)
    (h : leadsWith (strL "#") (pyStrip line) = true) :
    stepLine st line = (initState, closeAllOut st ++ headingOut (pyStrip line)) := by
  have h0 : pyStrip line ≠ [] := ne_nil_of_leadsWith '#' [] _ h
  simp [stepLine, h0, h]

theorem stepLine_ulB (st : MState) (line : List Char)
    (h1 : leadsWith (strL "#") (pyStrip line) = false)
    (h2 : leadsWith (strL "- ") (pyStrip line) = true) :
    stepLine st line =
      (⟨true, false, []⟩,
        closeParagraphOut st.paragraph_lines ++ closeOlOut st.in_ol
          ++ (if st.in_ul then [] else strL "<ul>\n")
          ++ strL "<li>" ++ process_line ((pyStrip line).drop 2) ++ strL "</li>\n") := by
  have h0 : pyStrip line ≠ [] := ne_nil_of_leadsWith '-' [' '] _ h2
  simp [stepLine, h0, h1, h2]

theorem stepLine_olB (st : MState) (line : List Char)
    (h1 : leadsWith (strL "#") (pyStrip line) = false)
    (h2 : leadsWith (strL "- ") (pyStrip line) = false)
    (h3 : leadsWith (strL "* ") (pyStrip line) = true) :
    stepLine st line =
      (⟨false, true, []⟩,
        closeParagraphOut st.paragraph_lines ++ closeUlOut st.in_ul
          ++ (if st.in_ol then [] else strL "<ol>\n")
          ++ strL "<li>" ++ process_line ((pyStrip line).drop 2) ++ strL "</li>\n") := by
  have h0 : pyStrip line ≠ [] := ne_nil_of_leadsWith '*' [' '] _ h3
  simp [stepLine, h0, h1, h2, h3]

theorem stepLine_paraB (st : MState) (line : List Char)
    (h0 : pyStrip line ≠ [])
    (h1 : leadsWith (strL "#") (pyStrip line) = false)
    (h2 : leadsWith (strL "- ") (pyStrip line) = false)
    (h3 : leadsWith (strL "* ") (pyStrip line) = false) :
    stepLine st line =
      (⟨false, false, st.paragraph_lines ++ [line]⟩,
        closeUlOut st.in_ul ++ closeOlOut st.in_ol) := by
  simp [stepLine, h0, h1, h2, h3]

theorem getLastD_append (xs ys : List Char) (d : Char) :
    (xs ++ ys).getLastD d = ys.getLastD (xs.getLastD d) := by
  induction xs generalizing d with
  | nil => rfl
  | cons a xs ih =>
    rw [List.cons_append, List.getLastD_cons, ih, List.getLastD_cons]

theorem headingOut_invalid (stripped : List Char)
    (h : ¬((stripped.takeWhile (fun c => c = '#')).length ≤ 6 ∧
        (stripped.drop (stripped.takeWhile (fun c => c = '#')).length).headD '#' = ' ')) :
    headingOut stripped = [] := by
  simp only [headingOut]
  by_cases hc : (stripped.takeWhile (fun c => c = '#')).length ≤ 6
  · rw [if_pos hc]
    push_neg at h
    have hd := h hc
    cases hdrop : stripped.drop (stripped.takeWhile (fun c => c = '#')).length with
    | nil => rfl
    | cons a t =>
      rw [hdrop] at hd
      simp only [List.headD_cons] at hd
      split
      · next t' heq =>
        exfalso
        exact hd (by injection heq)
      · rfl
  · rw [if_neg hc]

/-- Claim C1 (amended): a line whose stripped form starts with a hash but
is not a valid heading (hash run longer than six, or not immediately
followed by a space) produces no heading output, but it does close any open
paragraph, unordered list or ordered list exactly as a blank line does,
emitting their closing output and resetting the block state. -/
theorem c1_invalid_heading_closes (st : MState) (line : List Char)
    (h1 : leadsWith (strL "#") (pyStrip line) = true)
    (h2 : ¬(((pyStrip line).takeWhile (fun c => c = '#')).length ≤ 6 ∧
        ((pyStrip line).drop ((pyStrip line).takeWhile (fun c => c = '#')).length).headD '#' = ' ')) :
    stepLine st line = (initState, closeAllOut st) := by
  rw [stepLine_headingB st line h1, headingOut_invalid _ h2, List.append_nil]

/-- Counterexample to claim C1 as stated: the invalid heading line hash-b-a-d
fed to a state with an open paragraph does emit output and does change the
state, because main closes the open blocks before testing heading validity. -/
theorem c1_counterexample :
    leadsWith (strL "#") (pyStrip (strL "#bad")) = true ∧
    ¬(((pyStrip (strL "#bad")).takeWhile (fun c => c = '#')).length ≤ 6 ∧
      ((pyStrip (strL "#bad")).drop
        ((pyStrip (strL "#bad")).takeWhile (fun c => c = '#')).length).headD '#' = ' ') ∧
    (stepLine ⟨false, false, [strL "hello"]⟩ (strL "#bad")).2 ≠ [] ∧
    (stepLine ⟨false, false, [strL "hello"]⟩ (strL "#bad")).1 ≠ ⟨false, false, [strL "hello"]⟩ := by
  refine ⟨by decide, by decide, by decide, by decide⟩

/-- Witness for the amended C1 at a concrete seven-hash line and an open
unordered list. -/
theorem c1_invalid_heading_closes_witness :
    leadsWith (strL "#") (pyStrip (strL "#######")) = true ∧
    stepLine ⟨true, false, []⟩ (strL "#######") =
      (initState, closeAllOut ⟨true, false, []⟩) :=
  ⟨by decide,
    c1_invalid_heading_closes ⟨true, false, []⟩ (strL "#######") (by decide) (by decide)⟩

/-- Claim C4: a valid heading line with level L between one and six and
text T (with no trailing whitespace, so that stripping leaves the line
unchanged) makes main close any open block, emit exactly the opening tag,
the transformed text, the closing tag and one newline, and buffer nothing:
the resulting state is the initial one. -/
theorem c4_valid_heading (st : MState) (L : Nat) (T : List Char)
    (h1 : 1 ≤ L) (h2 : L ≤ 6)
    (hT : isPySpace (T.getLastD ' ') = false) :
    stepLine st (List.replicate L '#' ++ ' ' :: T) =
      (initState,
        closeAllOut st
          ++ (strL "<h" ++ Nat.toDigits 10 L ++ strL ">" ++ process_line T
              ++ strL "</h" ++ Nat.toDigits 10 L ++ strL ">\n")) := by
  obtain ⟨n, rfl⟩ : ∃ n, L = n + 1 := ⟨L - 1, (Nat.succ_pred_eq_of_pos h1).symm⟩
  have hstrip : pyStrip (List.replicate (n + 1) '#' ++ ' ' :: T)
      = List.replicate (n + 1) '#' ++ ' ' :: T := by
    apply pyStrip_eq_self
    · rw [List.replicate_succ, List.cons_append, List.headD_cons]
      decide
    · rw [getLastD_append, List.getLastD_cons]
      exact hT
  have hlead : leadsWith (strL "#") (pyStrip (List.replicate (n + 1) '#' ++ ' ' :: T)) = true := by
    rw [hstrip, List.replicate_succ, List.cons_append]
    simp [leadsWith, leadsWith_nil_pattern]
  have htake : List.takeWhile (fun c => c = '#') (List.replicate (n + 1) '#' ++ ' ' :: T)
      = List.replicate (n + 1) '#' := by
    rw [List.takeWhile_append, List.takeWhile_replicate]
    simp [List.takeWhile_cons]
  have hout : headingOut (List.replicate (n + 1) '#' ++ ' ' :: T)
      = strL "<h" ++ Nat.toDigits 10 (n + 1) ++ strL ">" ++ process_line T
          ++ strL "</h" ++ Nat.toDigits 10 (n + 1) ++ strL ">\n" := by
    simp only [headingOut, htake, List.length_replicate]
    rw [if_pos h2, List.drop_left' (List.length_replicate _ _)]
    rfl
  rw [stepLine_headingB st _ hlead, hstrip, hout]

/-- Witness for C4 at a concrete level-two heading from the initial
state. -/
theorem c4_valid_heading_witness :
    stepLine initState (List.replicate 2 '#' ++ ' ' :: strL "Hi") =
      (initState,
        closeAllOut initState
          ++ (strL "<h" ++ Nat.toDigits 10 2 ++ strL ">" ++ process_line (strL "Hi")
              ++ strL "</h" ++ Nat.toDigits 10 2 ++ strL ">\n")) :=
  c4_valid_heading initState 2 (strL "Hi") (by decide) (by decide) (by decide)

theorem intercalate_single (sep x : List Char) :
    List.intercalate sep [x] = x := by
  simp [List.intercalate]

theorem processGo_para_run (lines : List (List Char)) :
    ∀ buf, (∀ x ∈ lines, pyStrip x ≠ [] ∧ leadsWith (strL "#") (pyStrip x) = false ∧
        leadsWith (strL "- ") (pyStrip x) = false ∧ leadsWith (strL "* ") (pyStrip x) = false) →
      processGo ⟨false, false, buf⟩ lines = closeParagraphOut (buf ++ lines) := by
  induction lines with
  | nil =>
    intro buf _
    simp [processGo, closeAllOut, closeUlOut, closeOlOut]
  | cons l ls ih =>
    intro buf hc
    obtain ⟨h0, h1, h2, h3⟩ := hc l (List.mem_cons_self l ls)
    have hstep := stepLine_paraB ⟨false, false, buf⟩ l h0 h1 h2 h3
    have hrest := ih (buf ++ [l]) (fun x hx => hc x (List.mem_cons_of_mem l hx))
    simp only [processGo, hstep]
    simp [closeUlOut, closeOlOut, hrest, List.append_assoc]

/-- Claim C6: a document consisting of one maximal run of paragraph lines
(each nonempty after stripping and classified neither as heading nor as a
list item) produces exactly one p element whose lines are joined by the
break tag: with N lines there are N minus one break separators, none when
N is one. -/
theorem c6_paragraph_run (l : List Char) (ls : List (List Char))
    (hc : ∀ x ∈ l :: ls, pyStrip x ≠ [] ∧ leadsWith (strL "#") (pyStrip x) = false ∧
        leadsWith (strL "- ") (pyStrip x) = false ∧ leadsWith (strL "* ") (pyStrip x) = false) :
    processDoc (l :: ls) =
      strL "<p>\n" ++ List.intercalate (strL "<br/>\n") ((l :: ls).map process_line)
        ++ strL "\n</p>\n" := by
  have h : processDoc (l :: ls) = closeParagraphOut ([] ++ (l :: ls)) :=
    processGo_para_run (l :: ls) [] hc
  rw [List.nil_append] at h
  rw [h]
  cases ls with
  | nil =>
    rw [List.map_cons, List.map_nil, intercalate_single]
    rfl
  | cons l2 ls2 =>
    rfl

/-- Witness for C6 at a concrete two-line paragraph run. -/
theorem c6_paragraph_run_witness :
    processDoc [strL "hello", strL "world"] =
      strL "<p>\n" ++ List.intercalate (strL "<br/>\n")
        ([strL "hello", strL "world"].map process_line) ++ strL "\n</p>\n" :=
  c6_paragraph_run (strL "hello") [strL "world"] (by decide)

theorem stepLine_ulItem (st : MState) (c : List Char)
    (hl : isPySpace (c.getLastD ' ') = false) :
    stepLine st ('-' :: ' ' :: c) =
      (⟨true, false, []⟩,
        closeParagraphOut st.paragraph_lines ++ closeOlOut st.in_ol
          ++ (if st.in_ul then [] else strL "<ul>\n")
          ++ strL "<li>" ++ process_line c ++ strL "</li>\n") := by
  have hstrip : pyStrip ('-' :: ' ' :: c) = '-' :: ' ' :: c := by
    apply pyStrip_eq_self
    · rw [List.headD_cons]; decide
    · rw [List.getLastD_cons, List.getLastD_cons]; exact hl
  have h1 : leadsWith (strL "#") (pyStrip ('-' :: ' ' :: c)) = false := by
    rw [hstrip]; rfl
  have h2 : leadsWith (strL "- ") (pyStrip ('-' :: ' ' :: c)) = true := by
    rw [hstrip]; rfl
  rw [stepLine_ulB st _ h1 h2, hstrip]
  rfl

theorem stepLine_olItem (st : MState) (c : List Char)
    (hl : isPySpace (c.getLastD ' ') = false) :
    stepLine st ('*' :: ' ' :: c) =
      (⟨false, true, []⟩,
        closeParagraphOut st.paragraph_lines ++ closeUlOut st.in_ul
          ++ (if st.in_ol then [] else strL "<ol>\n")
          ++ strL "<li>" ++ process_line c ++ strL "</li>\n") := by
  have hstrip : pyStrip ('*' :: ' ' :: c) = '*' :: ' ' :: c := by
    apply pyStrip_eq_self
    · rw [List.headD_cons]; decide
    · rw [List.getLastD_cons, List.getLastD_cons]; exact hl
  have h1 : leadsWith (strL "#") (pyStrip ('*' :: ' ' :: c)) = false := by
    rw [hstrip]; rfl
  have h2 : leadsWith (strL "- ") (pyStrip ('*' :: ' ' :: c)) = false := by
    rw [hstrip]; rfl
  have h3 : leadsWith (strL "* ") (pyStrip ('*' :: ' ' :: c)) = true := by
    rw [hstrip]; rfl
  rw [stepLine_olB st _ h1 h2 h3, hstrip]
  rfl

theorem processGo_ul_run (contents : List (List Char)) (rest : List (List Char))
    (hc : ∀ x ∈ contents, isPySpace (x.getLastD ' ') = false) :
    processGo ⟨true, false, []⟩ ((contents.map (fun x => '-' :: ' ' :: x)) ++ rest) =
      (contents.map (fun x => strL "<li>" ++ process_line x ++ strL "</li>\n")).flatten
        ++ processGo ⟨true, false, []⟩ rest := by
  induction contents with
  | nil => simp
  | cons c cs ih =>
    have h := hc c (List.mem_cons_self c cs)
    have hstep := stepLine_ulItem ⟨true, false, []⟩ c h
    have hrest := ih (fun x hx => hc x (List.mem_cons_of_mem c hx))
    simp only [List.map_cons, List.cons_append, processGo, hstep]
    simp [closeParagraphOut, closeOlOut, hrest, List.append_assoc]

/-- Claim C5: a document consisting of one maximal run of dash-space list
lines yields exactly one ul element wrapping one li item per line, for any
run length of at least one; and when a star-space line follows the run the
unordered list is closed and an ordered list is opened. -/
theorem c5_ul_run (c : List Char) (cs : List (List Char)) (d : List Char)
    (hc : ∀ x ∈ c :: cs, isPySpace (x.getLastD ' ') = false)
    (hd : isPySpace (d.getLastD ' ') = false) :
    processDoc ((c :: cs).map (fun x => '-' :: ' ' :: x)) =
      strL "<ul>\n"
        ++ ((c :: cs).map (fun x => strL "<li>" ++ process_line x ++ strL "</li>\n")).flatten
        ++ strL "</ul>\n" ∧
    processDoc ((c :: cs).map (fun x => '-' :: ' ' :: x) ++ ['*' :: ' ' :: d]) =
      strL "<ul>\n"
        ++ ((c :: cs).map (fun x => strL "<li>" ++ process_line x ++ strL "</li>\n")).flatten
        ++ strL "</ul>\n" ++ strL "<ol>\n" ++ strL "<li>" ++ process_line d ++ strL "</li>\n"
        ++ strL "</ol>\n" := by
  have hfirst := stepLine_ulItem initState c (hc c (List.mem_cons_self c cs))
  have htail := fun x hx => hc x (List.mem_cons_of_mem c hx)
  constructor
  · have hrun := processGo_ul_run cs [] htail
    rw [List.append_nil] at hrun
    show processGo initState _ = _
    simp only [List.map_cons, processGo, hfirst]
    simp [closeParagraphOut, closeOlOut, closeUlOut, closeAllOut,
      initState, List.append_assoc] at hrun ⊢
    rw [hrun]
    simp [processGo, closeAllOut, closeParagraphOut, closeUlOut, closeOlOut]
  · have hrun := processGo_ul_run cs ['*' :: ' ' :: d] htail
    have hol := stepLine_olItem ⟨true, false, []⟩ d hd
    show processGo initState _ = _
    simp only [List.map_cons, List.cons_append, processGo, hfirst]
    simp [closeParagraphOut, closeOlOut, closeUlOut, closeAllOut, processGo,
      initState, hol, List.append_assoc, List.append_eq] at hrun ⊢
    rw [hrun]

/-- Witness for C5 at a concrete two-item run followed by a star item. -/
theorem c5_ul_run_witness :
    processDoc ([strL "item1", strL "item2"].map (fun x => '-' :: ' ' :: x)) =
      strL "<ul>\n"
        ++ ([strL "item1", strL "item2"].map
            (fun x => strL "<li>" ++ process_line x ++ strL "</li>\n")).flatten
        ++ strL "</ul>\n" ∧
    processDoc ([strL "item1", strL "item2"].map (fun x => '-' :: ' ' :: x)
        ++ ['*' :: ' ' :: strL "o1"]) =
      strL "<ul>\n"
        ++ ([strL "item1", strL "item2"].map
            (fun x => strL "<li>" ++ process_line x ++ strL "</li>\n")).flatten
        ++ strL "</ul>\n" ++ strL "<ol>\n" ++ strL "<li>" ++ process_line (strL "o1")
        ++ strL "</li>\n" ++ strL "</ol>\n" :=
  c5_ul_run (strL "item1") [strL "item2"] (strL "o1") (by decide) (by decide)

/-- Number of open block contexts of a loop state: a nonempty paragraph
buffer, an open unordered list, an open ordered list. -/
def openCount (st : MState) : Nat :=
  (if st.paragraph_lines = [] then 0 else 1)
    + (if st.in_ul then 1 else 0) + (if st.in_ol then 1 else 0)

theorem closeParagraphOut_hasSub (para : List (List Char)) (h : para ≠ []) :
    hasSub (strL "</p>") (closeParagraphOut para) = true := by
  match para with
  | [l] =>
    apply hasSub_append_right
    decide
  | a :: b :: t =>
    apply hasSub_append_right
    decide

/-- Claim C3: the initial state has no open block context; after any step
at most one context is open; and whenever a step opens a context different
from the one that was open, the output of that step contains the closing
tag of the previously open context. -/
theorem c3_block_exclusion (st : MState) (line : List Char) :
    openCount initState = 0 ∧
    openCount (stepLine st line).1 ≤ 1 ∧
    (st.in_ul = true → (stepLine st line).1.in_ol = true →
      hasSub (strL "</ul>") (stepLine st line).2 = true) ∧
    (st.in_ol = true → (stepLine st line).1.in_ul = true →
      hasSub (strL "</ol>") (stepLine st line).2 = true) ∧
    (st.paragraph_lines ≠ [] → (stepLine st line).1.in_ul = true →
      hasSub (strL "</p>") (stepLine st line).2 = true) ∧
    (st.paragraph_lines ≠ [] → (stepLine st line).1.in_ol = true →
      hasSub (strL "</p>") (stepLine st line).2 = true) ∧
    (st.in_ul = true → (stepLine st line).1.paragraph_lines ≠ [] →
      hasSub (strL "</ul>") (stepLine st line).2 = true) ∧
    (st.in_ol = true → (stepLine st line).1.paragraph_lines ≠ [] →
      hasSub (strL "</ol>") (stepLine st line).2 = true) := by
  refine ⟨by decide, ?_⟩
  by_cases hb : pyStrip line = []
  · rw [stepLine_blankB st line hb]
    dsimp only
    refine ⟨by decide, ?_, ?_, ?_, ?_, ?_, ?_⟩
    · intro _ h; exact absurd h (by decide)
    · intro _ h; exact absurd h (by decide)
    · intro _ h; exact absurd h (by decide)
    · intro _ h; exact absurd h (by decide)
    · intro _ h; exact absurd rfl h
    · intro _ h; exact absurd rfl h
  · by_cases hh : leadsWith (strL "#") (pyStrip line) = true
    · rw [stepLine_headingB st line hh]
      dsimp only
      refine ⟨by decide, ?_, ?_, ?_, ?_, ?_, ?_⟩
      · intro _ h; exact absurd h (by decide)
      · intro _ h; exact absurd h (by decide)
      · intro _ h; exact absurd h (by decide)
      · intro _ h; exact absurd h (by decide)
      · intro _ h; exact absurd rfl h
      · intro _ h; exact absurd rfl h
    · have hh' : leadsWith (strL "#") (pyStrip line) = false := by
        simpa using hh
      by_cases hu : leadsWith (strL "- ") (pyStrip line) = true
      · rw [stepLine_ulB st line hh' hu]
        dsimp only
        refine ⟨by decide, ?_, ?_, ?_, ?_, ?_, ?_⟩
        · intro _ h; exact absurd h (by decide)
        · intro ho _
          apply hasSub_append_left
          apply hasSub_append_left
          apply hasSub_append_left
          apply hasSub_append_left
          apply hasSub_append_right
          rw [ho]
          decide
        · intro hp _
          apply hasSub_append_left
          apply hasSub_append_left
          apply hasSub_append_left
          apply hasSub_append_left
          apply hasSub_append_left
          exact closeParagraphOut_hasSub st.paragraph_lines hp
        · intro _ h; exact absurd h (by decide)
        · intro _ h; exact absurd rfl h
        · intro _ h; exact absurd rfl h
      · have hu' : leadsWith (strL "- ") (pyStrip line) = false := by
          simpa using hu
        by_cases ho : leadsWith (strL "* ") (pyStrip line) = true
        · rw [stepLine_olB st line hh' hu' ho]
          dsimp only
          refine ⟨by decide, ?_, ?_, ?_, ?_, ?_, ?_⟩
          · intro hul _
            apply hasSub_append_left
            apply hasSub_append_left
            apply hasSub_append_left
            apply hasSub_append_left
            apply hasSub_append_right
            rw [hul]
            decide
          · intro _ h; exact absurd h (by decide)
          · intro _ h; exact absurd h (by decide)
          · intro hp _
            apply hasSub_append_left
            apply hasSub_append_left
            apply hasSub_append_left
            apply hasSub_append_left
            apply hasSub_append_left
            exact closeParagraphOut_hasSub st.paragraph_lines hp
          · intro _ h; exact absurd rfl h
          · intro _ h; exact absurd rfl h
        · have ho' : leadsWith (strL "* ") (pyStrip line) = false := by
            simpa using ho
          rw [stepLine_paraB st line hb hh' hu' ho']
          dsimp only
          refine ⟨by simp [openCount], ?_, ?_, ?_, ?_, ?_, ?_⟩
          · intro _ h; exact absurd h (by decide)
          · intro _ h; exact absurd h (by decide)
          · intro _ h; exact absurd h (by decide)
          · intro _ h; exact absurd h (by decide)
          · intro hul _
            apply hasSub_append_left
            rw [hul]
            decide
          · intro hol _
            apply hasSub_append_right
            rw [hol]
            decide

/-- Witness for C3 at a concrete step that switches from an open unordered
list to an ordered list. -/
theorem c3_block_exclusion_witness :
    openCount initState = 0 ∧
    openCount (stepLine ⟨true, false, []⟩ (strL "* x")).1 ≤ 1 ∧
    ((⟨true, false, []⟩ : MState).in_ul = true →
      (stepLine ⟨true, false, []⟩ (strL "* x")).1.in_ol = true →
      hasSub (strL "</ul>") (stepLine ⟨true, false, []⟩ (strL "* x")).2 = true) ∧
    ((⟨true, false, []⟩ : MState).in_ol = true →
      (stepLine ⟨true, false, []⟩ (strL "* x")).1.in_ul = true →
      hasSub (strL "</ol>") (stepLine ⟨true, false, []⟩ (strL "* x")).2 = true) ∧
    ((⟨true, false, []⟩ : MState).paragraph_lines ≠ [] →
      (stepLine ⟨true, false, []⟩ (strL "* x")).1.in_ul = true →
      hasSub (strL "</p>") (stepLine ⟨true, false, []⟩ (strL "* x")).2 = true) ∧
    ((⟨true, false, []⟩ : MState).paragraph_lines ≠ [] →
      (stepLine ⟨true, false, []⟩ (strL "* x")).1.in_ol = true →
      hasSub (strL "</p>") (stepLine ⟨true, false, []⟩ (strL "* x")).2 = true) ∧
    ((⟨true, false, []⟩ : MState).in_ul = true →
      (stepLine ⟨true, false, []⟩ (strL "* x")).1.paragraph_lines ≠ [] →
      hasSub (strL "</ul>") (stepLine ⟨true, false, []⟩ (strL "* x")).2 = true) ∧
    ((⟨true, false, []⟩ : MState).in_ol = true →
      (stepLine ⟨true, false, []⟩ (strL "* x")).1.paragraph_lines ≠ [] →
      hasSub (strL "</ol>") (stepLine ⟨true, false, []⟩ (strL "* x")).2 = true) :=
  c3_block_exclusion ⟨true, false, []⟩ (strL "* x")

theorem findClose_clean (c1 c2 : Char) (t : List Char)
    (h : ∀ c ∈ t, c ≠ c1 ∧ c ≠ '\n') :
    findClose c1 c2 (t ++ [c1, c2]) = some (t, []) := by
  induction t with
  | nil => simp [findClose]
  | cons a t2 ih =>
    have ha := h a (List.mem_cons_self a t2)
    have ihh := ih (fun c hc => h c (List.mem_cons_of_mem a hc))
    cases t2 with
    | nil =>
      simp [findClose, ha.1, ha.2]
    | cons y t3 =>
      simp only [List.cons_append] at ihh ⊢
      simp [findClose, ha.1, ha.2, ihh]

theorem subGo_eq_nil (o1 o2 c1 c2 : Char) (repl : List Char → List Char)
    (fuel : Nat) : subGo o1 o2 c1 c2 repl fuel [] = [] := by
  cases fuel <;> rfl

theorem subGo_single_match (o1 o2 c1 c2 : Char) (repl : List Char → List Char)
    (fuel : Nat) (x : Char) (rest2 content : List Char)
    (hx : x ≠ '\n') (hfc : findClose c1 c2 rest2 = some (content, [])) :
    subGo o1 o2 c1 c2 repl (fuel + 1) (o1 :: o2 :: x :: rest2) =
      repl (x :: content) := by
  simp only [subGo, hfc]
  simp [hx, subGo_eq_nil]

theorem leBytes_lt (k x : Nat) : ∀ b ∈ leBytes k x, b < 256 := by
  induction k generalizing x with
  | zero => intro b hb; simp [leBytes] at hb
  | succ n ih =>
    intro b hb
    simp only [leBytes, List.mem_cons] at hb
    rcases hb with rfl | hb
    · exact Nat.mod_lt _ (by decide)
    · exact ih (x / 256) b hb

theorem md5Digest_bytes_lt (msg : List Nat) : ∀ b ∈ md5Digest msg, b < 256 := by
  intro b hb
  simp only [md5Digest, List.mem_append] at hb
  rcases hb with ((hb | hb) | hb) | hb
  all_goals exact leBytes_lt _ _ b hb

theorem hexDigitChar_ne_paren : ∀ n < 16, hexDigitChar n ≠ '(' := by decide

theorem md5_hash_no_paren (t : List Char) : '(' ∉ md5_hash t := by
  intro hmem
  simp only [md5_hash, List.mem_flatten] at hmem
  obtain ⟨l, hl, hcl⟩ := hmem
  simp only [List.mem_map] at hl
  obtain ⟨b, hb, rfl⟩ := hl
  have hblt := md5Digest_bytes_lt (strBytes t) b hb
  simp only [byteHex, List.mem_cons, List.not_mem_nil] at hcl
  rcases hcl with h | h | h
  · exact hexDigitChar_ne_paren (b / 16) (by omega) h.symm
  · exact hexDigitChar_ne_paren (b % 16) (Nat.mod_lt _ (by decide)) h.symm
  · exact h

theorem hasSub_false_of_not_mem (d1 d2 : Char) (s : List Char) (h : d1 ∉ s) :
    hasSub [d1, d2] s = false := by
  cases hx : hasSub [d1, d2] s with
  | false => rfl
  | true => exact absurd (mem_of_hasSub d1 d2 s hx) h

theorem hasSub_paren_md5 (t : List Char) :
    hasSub ['(', '('] (md5_hash t) = false :=
  hasSub_false_of_not_mem '(' '(' _ (md5_hash_no_paren t)

/-- Claim C2 (amended): process_line applies the bold and emphasis
substitutions first and only then the hash substitution, so the digest is
taken of the matched text as it stands after those substitutions.  When the
bracketed text contains no asterisk, underscore, closing bracket or
newline, the bold and emphasis passes leave it unchanged and the result is
the MD5 hex digest of the literal text; when it does contain bold markers,
as in the second conjunct, the digest is that of the substituted text. -/
theorem c2_hash_after_markup (t : List Char) (hne : t ≠ [])
    (h : ∀ c ∈ t, c ≠ '*' ∧ c ≠ '_' ∧ c ≠ ']' ∧ c ≠ '\n') :
    process_line ('[' :: '[' :: t ++ strL "]]") = md5_hash t ∧
    process_line (strL "[[**a**]]") = md5_hash (strL "<b>a</b>") := by
  refine ⟨?_, by decide⟩
  have hstar : ('*' : Char) ∉ ('[' :: '[' :: t ++ strL "]]") := by
    intro hmem
    rcases List.mem_cons.mp hmem with h1 | hmem2
    · exact absurd h1 (by decide)
    rcases List.mem_cons.mp hmem2 with h1 | hmem3
    · exact absurd h1 (by decide)
    rcases List.mem_append.mp hmem3 with h1 | h1
    · exact (h _ h1).1 rfl
    · revert h1; decide
  have hunder : ('_' : Char) ∉ ('[' :: '[' :: t ++ strL "]]") := by
    intro hmem
    rcases List.mem_cons.mp hmem with h1 | hmem2
    · exact absurd h1 (by decide)
    rcases List.mem_cons.mp hmem2 with h1 | hmem3
    · exact absurd h1 (by decide)
    rcases List.mem_append.mp hmem3 with h1 | h1
    · exact (h _ h1).2.1 rfl
    · revert h1; decide
  have hb : replace_bold_emphasis ('[' :: '[' :: t ++ strL "]]")
      = '[' :: '[' :: t ++ strL "]]" := by
    unfold replace_bold_emphasis
    rw [subPattern_no_opener '*' '*' '*' '*' _ _
        (hasSub_false_of_not_mem '*' '*' _ hstar)]
    exact subPattern_no_opener '_' '_' '_' '_' _ _
      (hasSub_false_of_not_mem '_' '_' _ hunder)
  obtain ⟨x, t2, rfl⟩ : ∃ x t2, t = x :: t2 := by
    cases t with
    | nil => exact absurd rfl hne
    | cons x t2 => exact ⟨x, t2, rfl⟩
  have hx4 : x ≠ '\n' := (h x (List.mem_cons_self x t2)).2.2.2
  have hclean : ∀ c ∈ t2, c ≠ ']' ∧ c ≠ '\n' := fun c hc =>
    ⟨(h c (List.mem_cons_of_mem x hc)).2.2.1, (h c (List.mem_cons_of_mem x hc)).2.2.2⟩
  have hfc : findClose ']' ']' (t2 ++ strL "]]") = some (t2, []) :=
    findClose_clean ']' ']' t2 hclean
  have hlen : ('[' :: '[' :: (x :: t2) ++ strL "]]").length = t2.length + 4 + 1 := by
    simp only [List.cons_append, List.length_cons, List.length_append]
    have h2 : (strL "]]").length = 2 := rfl
    rw [h2]
  have hmain : subPattern '[' '[' ']' ']' md5_hash ('[' :: '[' :: (x :: t2) ++ strL "]]")
      = md5_hash (x :: t2) := by
    unfold subPattern
    rw [hlen]
    rw [show ('[' :: '[' :: (x :: t2) ++ strL "]]")
        = '[' :: '[' :: x :: (t2 ++ strL "]]") from by simp]
    exact subGo_single_match '[' '[' ']' ']' md5_hash (t2.length + 4) x
      (t2 ++ strL "]]") t2 hx4 hfc
  have hparen : subPattern '(' '(' ')' ')' remove_c (md5_hash (x :: t2))
      = md5_hash (x :: t2) :=
    subPattern_no_opener '(' '(' ')' ')' _ _ (hasSub_paren_md5 (x :: t2))
  show replace_special (replace_bold_emphasis _) = _
  rw [hb]
  show subPattern '(' '(' ')' ')' remove_c
      (subPattern '[' '[' ']' ']' md5_hash ('[' :: '[' :: (x :: t2) ++ strL "]]")) = _
  rw [hmain, hparen]

/-- Counterexample to claim C2 as stated: on the line with the bold marker
inside the double brackets, the code first rewrites the bold span and then
hashes the rewritten text, so the output is the digest of the substituted
text and differs from the digest of the literal bracketed text. -/
theorem c2_counterexample :
    process_line (strL "[[**a**]]") ≠ md5_hash (strL "**a**") ∧
    md5_hash (strL "**a**") = strL "7344adec856fe1d08240951a9c75f676" ∧
    process_line (strL "[[**a**]]") = strL "d0d0b371e07faa35478d8dde673a8cc5" := by
  refine ⟨by decide, by decide, by decide⟩

/-- Witness for the amended C2 at the literal text abc, whose digest is the
well-known value, together with the concrete bold-marker conjunct. -/
theorem c2_hash_after_markup_witness :
    process_line ('[' :: '[' :: strL "abc" ++ strL "]]") = md5_hash (strL "abc") ∧
    process_line (strL "[[**a**]]") = md5_hash (strL "<b>a</b>") :=
  c2_hash_after_markup (strL "abc") (by decide) (by decide)
